import Mathlib

/-!
Verification of the duff dashboard: shallow embedding of the client
git-service resolver (gitService.ts), the filesystem adapter
(fsaAdapter.ts), the server HTTP routes (server/src/index.ts) and the
graph revision-range selection (GitGraph component), with theorems
checking the specification claims against these embeddings.
-/

namespace Duff

/-- File content is modelled as a byte string. -/
abbrev Content := String

/-- Errors thrown by the underlying git library or filesystem. -/
abbrev GitErr := String

/-- Character-list prefix test, the model of the JavaScript
String.prototype.startsWith semantics. -/
def listPre : List Char → List Char → Bool
  | [], _ => true
  | _ :: _, [] => false
  | a :: as, b :: bs => a = b && listPre as bs

/-- Model of the JavaScript s.startsWith(p). -/
def jsStartsWith (s p : String) : Bool := listPre p.data s.data

/-- The statusMatrix filter passed by gitService.getStatus: drop
node_modules/, .git/ and dist/ paths. -/
def svcFilter (path : String) : Bool :=
  !(jsStartsWith path "node_modules/") && !(jsStartsWith path ".git/")
    && !(jsStartsWith path "dist/")

/-- HEAD column of an isomorphic-git statusMatrix row: 0 when the path is
absent from the commit tree, 1 when present. -/
def headStat (h : Option Content) : Nat :=
  if h.isSome then 1 else 0

/-- WORKDIR column of a statusMatrix row: 0 absent, 1 identical to HEAD,
2 different from HEAD. -/
def workStat (h w : Option Content) : Nat :=
  match w with
  | none => 0
  | some x => if h = some x then 1 else 2

/-- STAGE column of a statusMatrix row: 0 absent, 1 identical to HEAD,
2 identical to WORKDIR, 3 different from both. -/
def stageStat (h w s : Option Content) : Nat :=
  match s with
  | none => 0
  | some x => if h = some x then 1 else if w = some x then 2 else 3

/-- One row of the isomorphic-git statusMatrix: row[0] path, row[1] HEAD
status, row[2] WORKDIR status, row[3] STAGE status. -/
structure StatusRow where
  path : String
  headS : Nat
  workdirS : Nat
  stageS : Nat
deriving DecidableEq

/-- One commit as returned by git.log. -/
structure LogCommit where
  oid : String
  timestamp : Nat
  message : String
  authorName : String
deriving DecidableEq

/-- The isomorphic-git operations gitService invokes, each fallible; a
backend value fixes the behaviour of the library for one repository
handle. statusMatrix receives the path filter given by the caller. -/
structure GitBackend where
  currentBranch : Except GitErr (Option String)
  resolveRefHEAD : Except GitErr String
  statusMatrix : (String → Bool) → Except GitErr (List StatusRow)
  log : Except GitErr (List LogCommit)
  readBlob : String → String → Except GitErr Content
  readFileWork : String → Except GitErr Content
  now : String

/-- The RepoStatus record returned by gitService.getStatus. -/
structure RepoStatus where
  branch : String
  modifiedFiles : List String
  hasChanges : Bool
  lastUpdate : String
deriving DecidableEq

/-- The branch computation of gitService.getStatus: currentBranch, with
the detached-HEAD fallback to a short hash, and "unknown" if both fail. -/
def statusBranch (b : GitBackend) : String :=
  match b.currentBranch with
  | .ok (some br) => br
  | .ok none => "HEAD"
  | .error _ =>
    match b.resolveRefHEAD with
    | .ok ref => ref.take 7
    | .error _ => "unknown"

/-- gitService.getStatus as an Except value: the body can throw when
statusMatrix throws (the branch lookup catches its own errors). -/
def getStatusE (b : GitBackend) : Except GitErr RepoStatus :=
  match b.statusMatrix svcFilter with
  | .error e => .error e
  | .ok matrix =>
    let modifiedFiles :=
      (matrix.filter (fun row => row.headS != row.workdirS || row.workdirS != row.stageS)).map
        (fun row => row.path)
    .ok { branch := statusBranch b
          modifiedFiles := modifiedFiles
          hasChanges := decide (0 < modifiedFiles.length)
          lastUpdate := b.now }

/-- gitService.getFiles before its try/catch wrapper: with no bounds it
delegates to getStatus, otherwise it scans the unfiltered statusMatrix
and keeps rows whose HEAD and WORKDIR columns differ (the given bounds
are not consulted by this branch). -/
def getFilesE (b : GitBackend) (fro toR : Option String) : Except GitErr (List String) :=
  if fro = none ∧ toR = none then
    (getStatusE b).map (fun s => s.modifiedFiles)
  else
    (b.statusMatrix (fun _ => true)).map
      (fun matrix => (matrix.filter (fun row => row.headS != row.workdirS)).map
        (fun row => row.path))

/-- gitService.getFiles: any internal failure is caught and becomes []. -/
def getFiles (b : GitBackend) (fro toR : Option String) : List String :=
  match getFilesE b fro toR with
  | .ok l => l
  | .error _ => []

/-- One entry of the list gitService.getLog returns (date is the commit
timestamp in milliseconds). -/
structure LogEntry where
  hash : String
  date : Nat
  message : String
  authorName : String
  type : String
deriving DecidableEq

/-- gitService.getLog: maps the git log, and any failure is caught and
becomes the empty list. -/
def getLog (b : GitBackend) : List LogEntry :=
  match b.log with
  | .ok cs => cs.map (fun c =>
      { hash := c.oid, date := c.timestamp * 1000, message := c.message
        authorName := c.authorName, type := "commit" })
  | .error _ => []

/-- gitService.getFileContent: readBlob at a version, or a working-tree
read; any failure is caught and becomes null. -/
def getFileContent (b : GitBackend) (filePath : String) (version : Option String) :
    Option Content :=
  match version with
  | some v =>
    match b.readBlob v filePath with
    | .ok blob => some blob
    | .error _ => none
  | none =>
    match b.readFileWork filePath with
    | .ok c => some c
    | .error _ => none

/-- The getBlob helper inside gitService.getDiff: a readBlob failure is
caught and yields empty content. -/
def getBlob (b : GitBackend) (ref path : String) : String :=
  match b.readBlob ref path with
  | .ok blob => blob
  | .error _ => ""

/-- The getWorking helper inside gitService.getDiff: a working-tree read
failure is caught and yields empty content. -/
def getWorking (b : GitBackend) (path : String) : String :=
  match b.readFileWork path with
  | .ok c => c
  | .error _ => ""

/-- The left snapshot of a file in getDiff: content at the given base
revision, defaulting to HEAD. -/
def leftSnap (b : GitBackend) (fro : Option String) (f : String) : String :=
  getBlob b (fro.getD "HEAD") f

/-- The right snapshot of a file in getDiff: content at the given target
revision, or the live working-tree content when none is given. -/
def rightSnap (b : GitBackend) (toR : Option String) (f : String) : String :=
  match toR with
  | some t => getBlob b t f
  | none => getWorking b f

/-- One createPatch invocation recorded by the getDiff loop. -/
structure Patch where
  fileName : String
  oldStr : String
  newStr : String
  oldHeader : String
  newHeader : String
deriving DecidableEq

/-- The per-file loop of gitService.getDiff: identical snapshots are
skipped unless a specific file was requested (explicit = true); each
remaining file contributes one patch, in order. -/
def diffLoop (b : GitBackend) (explicit : Bool) (fro toR : Option String) :
    List String → List Patch
  | [] => []
  | f :: rest =>
    let oldC := leftSnap b fro f
    let newC := rightSnap b toR f
    if oldC = newC ∧ explicit = false then diffLoop b explicit fro toR rest
    else
      { fileName := f, oldStr := oldC, newStr := newC
        oldHeader := fro.getD "HEAD", newHeader := toR.getD "Working Tree" }
        :: diffLoop b explicit fro toR rest

/-- gitService.getDiff as the ordered list of patches it concatenates:
the target list is the requested file alone, or getFiles for the same
bounds. -/
def getDiffPatches (b : GitBackend) (file fro toR : Option String) : List Patch :=
  let files := match file with
    | some f => [f]
    | none => getFiles b fro toR
  diffLoop b file.isSome fro toR files

/-- gitService.getDiff proper: the concatenation of the rendered
patches, for any rendering function standing for createPatch. -/
def getDiff (createPatch : Patch → String) (b : GitBackend) (file fro toR : Option String) :
    String :=
  String.join ((getDiffPatches b file fro toR).map createPatch)

end Duff

namespace Duff

/-! Concrete repository model, from which a GitBackend is derived the
way isomorphic-git derives its answers from the object store, the index
and the working tree. -/

/-- A concrete repository state: a scan universe of paths, the three
per-path states (HEAD tree, index, working tree), the content of every
revision, and the log metadata. -/
structure Repo where
  paths : List String
  head : String → Option Content
  index : String → Option Content
  work : String → Option Content
  revs : String → String → Option Content
  branchName : Option String
  headOid : String
  commits : List LogCommit

/-- The statusMatrix row of one path of a repository. -/
def rowOf (r : Repo) (p : String) : StatusRow :=
  { path := p
    headS := headStat (r.head p)
    workdirS := workStat (r.head p) (r.work p)
    stageS := stageStat (r.head p) (r.work p) (r.index p) }

/-- The backend a well-formed repository presents to gitService: no
operation fails, and statusMatrix scans the paths passing the filter. -/
def backendOfRepo (r : Repo) : GitBackend :=
  { currentBranch := .ok r.branchName
    resolveRefHEAD := .ok r.headOid
    statusMatrix := fun f => .ok ((r.paths.filter f).map (rowOf r))
    log := .ok r.commits
    readBlob := fun rev p =>
      match r.revs rev p with
      | some c => .ok c
      | none => .error "NotFoundError"
    readFileWork := fun p =>
      match r.work p with
      | some c => .ok c
      | none => .error "ENOENT"
    now := "" }

/-- Modelled from the spec: the set of repo-relative paths whose content
differs between revision rev and the working tree (the comparison side
of claim C1; the code under src does not compute this set). -/
def specFilesFromVsWork (r : Repo) (rev : String) : List String :=
  r.paths.filter (fun p => decide (r.revs rev p ≠ r.work p))

/-- Modelled from the spec: the set of repo-relative paths whose content
differs between two revisions. -/
def specFilesRevVsRev (r : Repo) (rev1 rev2 : String) : List String :=
  r.paths.filter (fun p => decide (r.revs rev1 p ≠ r.revs rev2 p))

/-- The set of paths where at least one pairwise inequality holds among
the committed tree, the index and the working tree, over a path list. -/
def pairwiseDisagree (r : Repo) (ps : List String) : List String :=
  ps.filter (fun p =>
    decide (r.head p ≠ r.index p ∨ r.index p ≠ r.work p ∨ r.head p ≠ r.work p))

end Duff

namespace Duff

/-! Filesystem adapter symlink operations: the first version of
fsaAdapter.ts throws Not-implemented errors, the second version answers
readlink with the empty string and symlink with a silent no-op. -/

/-- readlink of the first fsaAdapter version. -/
def readlink1 (_path : String) : Except String String :=
  .error "Not implemented: readlink"

/-- symlink of the first fsaAdapter version. -/
def symlink1 (_target _path : String) : Except String Unit :=
  .error "Not implemented: symlink"

/-- readlink of the second fsaAdapter version. -/
def readlink2 (_path : String) : Except String String :=
  .ok ""

/-- symlink of the second fsaAdapter version. -/
def symlink2 (_target _path : String) : Except String Unit :=
  .ok ()

end Duff

namespace Duff

/-! Revision-range selection of the GitGraph component. Two revisions of
handleNodeClick exist in the repository; the one in the current
GitGraph.tsx uses null both for the working-tree node and for nothing
selected, the other uses a distinct UNSET marker. -/

/-- Selection state of the current GitGraph.tsx: null (none) is both the
working-tree endpoint and the cleared state. -/
structure Sel1 where
  fromN : Option String
  toN : Option String
deriving DecidableEq

/-- handleNodeClick of the current GitGraph.tsx. -/
def handleNodeClick1 (sel : Sel1) (hash : Option String) (shiftKey : Bool) : Sel1 :=
  if shiftKey then
    if sel.fromN = hash then { sel with fromN := none }
    else { sel with toN := hash }
  else
    if sel.fromN = hash ∧ sel.toN = none then { sel with fromN := none }
    else { fromN := hash, toN := none }

/-- An endpoint of the alternate GitGraph revision: the UNSET marker, the
null value standing for the working tree, or a commit hash. -/
inductive SelVal where
  | unsetV : SelVal
  | nullV : SelVal
  | hashV : String → SelVal
deriving DecidableEq

/-- The clicked hash as stored by the alternate revision. -/
def ofHash : Option String → SelVal
  | none => .nullV
  | some h => .hashV h

/-- Selection state of the alternate GitGraph revision. -/
structure Sel2 where
  fromN : SelVal
  toN : SelVal
deriving DecidableEq

/-- handleNodeClick selection update of the alternate GitGraph revision:
shift-click extends the range when a from anchor exists; any other click
replaces the from anchor and marks to as unset. Nothing ever restores
the UNSET state of the from anchor. -/
def handleNodeClick2 (sel : Sel2) (hash : Option String) (shiftKey : Bool) : Sel2 :=
  if shiftKey = true ∧ sel.fromN ≠ .unsetV then { sel with toN := ofHash hash }
  else { fromN := ofHash hash, toN := .unsetV }

end Duff

namespace Duff

/-! Server registry: the reorder route. -/

/-- One registered repository of the server registry. -/
structure Repository where
  id : String
  name : String
  path : String
  pollInterval : Nat
deriving DecidableEq

/-- POST /api/repositories/reorder: map each given id to the registered
repository carrying it, drop the misses, persist the result. -/
def reorderRepositories (currentRepos : List Repository) (repositoryIds : List String) :
    List Repository :=
  (repositoryIds.map (fun i => currentRepos.find? (fun r => r.id == i))).filterMap id

/-- The simple-git operations the server routes invoke, each fallible. -/
structure SGit where
  statusFiles : Except String (List String)
  revparseHEAD : Except String String
  diffOut : List String → Except String String

/-- The JSON body of the status route. -/
structure StatusJson where
  branch : String
  modifiedFiles : List String
  hasChanges : Bool
deriving DecidableEq

/-- An HTTP response of a server route: a payload or a status code with
an error message. -/
inductive ApiRes (α : Type) where
  | ok : α → ApiRes α
  | err : Nat → String → ApiRes α
deriving DecidableEq

/-- GET /api/repositories/:id/status once the repository is resolved:
git status then rev-parse, a failure of either becoming a 500. -/
def statusRoute (g : SGit) : ApiRes StatusJson :=
  match g.statusFiles with
  | .error e => .err 500 e
  | .ok files =>
    match g.revparseHEAD with
    | .error e => .err 500 e
    | .ok branch =>
      .ok { branch := branch, modifiedFiles := files
            hasChanges := decide (0 < files.length) }

/-- A whitespace character in the sense of the JavaScript trim. -/
def isWsChar (c : Char) : Bool :=
  c = ' ' || c = '\t' || c = '\n' || c = '\r'

/-- Model of the JavaScript s.trim(). -/
def jsTrim (s : String) : String :=
  String.mk (((s.data.dropWhile isWsChar).reverse.dropWhile isWsChar).reverse)

/-- Split a character list at every newline. -/
def splitNlAux : List Char → List Char → List (List Char)
  | acc, [] => [acc.reverse]
  | acc, c :: cs =>
    if c = '\n' then acc.reverse :: splitNlAux [] cs else splitNlAux (c :: acc) cs

/-- The name-only parse of the files route: split the diff output on
newlines and drop blank lines. -/
def splitLinesNonBlank (s : String) : List String :=
  ((splitNlAux [] s.data).map String.mk).filter (fun l => jsTrim l != "")

/-- GET /api/repositories/:id/files once the repository is resolved:
with both bounds a name-only diff over from..to, with only a from bound
a name-only diff against it, otherwise the git status file list. -/
def filesRoute (g : SGit) (fro toR : Option String) : ApiRes (List String) :=
  match fro, toR with
  | some f, some t =>
    match g.diffOut ["--name-only", f ++ ".." ++ t] with
    | .error e => .err 500 e
    | .ok out => .ok (splitLinesNonBlank out)
  | some f, none =>
    match g.diffOut ["--name-only", f] with
    | .error e => .err 500 e
    | .ok out => .ok (splitLinesNonBlank out)
  | none, _ =>
    match g.statusFiles with
    | .error e => .err 500 e
    | .ok files => .ok files

end Duff

namespace Duff

/-! Path arithmetic of the content route, modelling the node path module
over POSIX separators, and the route itself. -/

/-- Split a character list at every slash. -/
def splitSlashAux : List Char → List Char → List (List Char)
  | acc, [] => [acc.reverse]
  | acc, c :: cs =>
    if c = '/' then acc.reverse :: splitSlashAux [] cs else splitSlashAux (c :: acc) cs

/-- Path segments of a string: split on the separator and drop the empty
and single-dot segments (double-dot segments are kept). -/
def splitSlash (s : String) : List String :=
  ((splitSlashAux [] s.data).map String.mk).filter (fun x => x != "" && x != ".")

/-- Normalization of an absolute path: a double-dot segment pops the
last kept segment (and is dropped at the root), every other segment is
kept; the accumulator holds the kept segments reversed. -/
def normStack (acc : List String) : List String → List String
  | [] => acc.reverse
  | seg :: rest =>
    if seg = ".." then normStack acc.tail rest else normStack (seg :: acc) rest

/-- Model of path.resolve(base, p) for an absolute base, as normalized
segments: an absolute p replaces the base, otherwise p is appended, and
the whole is normalized. -/
def resolveSegs (baseSegs : List String) (p : String) : List String :=
  if jsStartsWith p "/" then normStack [] (splitSlash p)
  else normStack [] (baseSegs ++ splitSlash p)

/-- Longest common prefix removal: the two suffixes left after dropping
the shared leading segments. -/
def dropCommon : List String → List String → List String × List String
  | a :: as, b :: bs => if a = b then dropCommon as bs else (a :: as, b :: bs)
  | as, bs => (as, bs)

/-- Model of path.relative on normalized segments: one double-dot per
remaining base segment, then the remaining target segments. -/
def relSegs (fromS toS : List String) : List String :=
  let rest := dropCommon fromS toS
  List.replicate rest.1.length ".." ++ rest.2

/-- Join segments with the separator, as path.relative renders its
result. -/
def joinSegs : List String → String
  | [] => ""
  | [x] => x
  | x :: xs => x ++ "/" ++ joinSegs xs

/-- Lowercase a string, as the route lowercases the extension. -/
def jsToLower (s : String) : String := String.mk (s.data.map Char.toLower)

/-- The part of a character list after its last slash. -/
def afterLastSlash (cs : List Char) : List Char :=
  (cs.reverse.takeWhile (fun c => c ≠ '/')).reverse

/-- Model of path.extname: the suffix of the basename from its last dot,
empty when the basename has no dot or only a leading one. -/
def extname (p : String) : String :=
  let base := afterLastSlash p.data
  let tail := base.reverse.takeWhile (fun c => c ≠ '.')
  if tail.length + 1 < base.length then String.mk ('.' :: tail.reverse)
  else ""

/-- The mime table of the content route. -/
def mimeOf (ext : String) : String :=
  if ext = ".png" then "image/png"
  else if ext = ".jpg" then "image/jpeg"
  else if ext = ".jpeg" then "image/jpeg"
  else if ext = ".gif" then "image/gif"
  else if ext = ".webp" then "image/webp"
  else if ext = ".svg" then "image/svg+xml"
  else "application/octet-stream"

/-- The filesystem and object-store effects the content route may
perform: the HEAD cat-file lookup, the existence probe and the raw
read. -/
structure ContentOracle where
  gitCat : String → Option String
  fsEx : String → Bool
  fsRead : String → String

/-- The responses of the content route. -/
inductive ContentRes where
  | badRequest : ContentRes
  | forbidden : ContentRes
  | okContent : String → String → ContentRes
  | notFoundHead : ContentRes
  | notFoundWork : ContentRes
deriving DecidableEq

/-- GET /api/repositories/:id/content once the repository is resolved:
resolve the requested file against the repository root, reject a path
leaving the root with 403 before consulting the oracle, then serve the
HEAD blob or the working-tree bytes. -/
def contentHandler (repoPath : String) (file : Option String) (version : Option String)
    (o : ContentOracle) : ContentRes :=
  match file with
  | none => .badRequest
  | some filePath =>
    let repoSegs := normStack [] (splitSlash repoPath)
    let fullSegs := resolveSegs repoSegs filePath
    let rel := joinSegs (relSegs repoSegs fullSegs)
    let isSafe := rel != "" && !(jsStartsWith rel "..") && !(jsStartsWith rel "/")
    if isSafe = false then .forbidden
    else
      let gitPath := rel
      let ct := mimeOf (jsToLower (extname filePath))
      if version = some "HEAD" then
        match o.gitCat ("HEAD:" ++ gitPath) with
        | some data => .okContent ct data
        | none => .notFoundHead
      else
        let fullPathToRead := joinSegs (resolveSegs repoSegs gitPath)
        if o.fsEx fullPathToRead then .okContent ct (o.fsRead fullPathToRead)
        else .notFoundWork

end Duff

namespace Duff

/-! Concrete fixtures the witnesses and counterexamples evaluate. -/

/-- A backend whose every operation fails. -/
def bFail : GitBackend :=
  { currentBranch := .error "fail"
    resolveRefHEAD := .error "fail"
    statusMatrix := fun _ => .error "fail"
    log := .error "fail"
    readBlob := fun _ _ => .error "fail"
    readFileWork := fun _ => .error "fail"
    now := "" }

/-- A one-file repository whose working tree changed a committed file. -/
def rSmall : Repo :=
  { paths := ["a.txt"]
    head := fun p => if p = "a.txt" then some "X" else none
    index := fun p => if p = "a.txt" then some "X" else none
    work := fun p => if p = "a.txt" then some "Y" else none
    revs := fun rev p => if rev = "HEAD" ∧ p = "a.txt" then some "X" else none
    branchName := some "main"
    headOid := "h0"
    commits := [] }

/-- A server git wrapper reporting one modified file. -/
def gSmall : SGit :=
  { statusFiles := .ok ["a.txt"]
    revparseHEAD := .ok "main"
    diffOut := fun _ => .ok "" }

/-- A repository where a file changed between an old commit c0 and the
current state, while HEAD, index and working tree all agree. -/
def rC1 : Repo :=
  { paths := ["a.txt"]
    head := fun p => if p = "a.txt" then some "Y" else none
    index := fun p => if p = "a.txt" then some "Y" else none
    work := fun p => if p = "a.txt" then some "Y" else none
    revs := fun rev p =>
      if rev = "c0" ∧ p = "a.txt" then some "X"
      else if rev = "c1" ∧ p = "a.txt" then some "Y" else none
    branchName := some "main"
    headOid := "c1"
    commits := [] }

/-- A repository whose only delta is an untracked file under
node_modules, a path the getStatus scan filter excludes. -/
def rC5 : Repo :=
  { paths := ["node_modules/a"]
    head := fun _ => none
    index := fun _ => none
    work := fun p => if p = "node_modules/a" then some "x" else none
    revs := fun _ _ => none
    branchName := some "main"
    headOid := "h0"
    commits := [] }

/-- A repository whose HEAD content and working tree agree on its one
file, so the two diff snapshots are byte-identical. -/
def rEq : Repo :=
  { paths := ["a.txt"]
    head := fun p => if p = "a.txt" then some "S" else none
    index := fun p => if p = "a.txt" then some "S" else none
    work := fun p => if p = "a.txt" then some "S" else none
    revs := fun rev p => if rev = "HEAD" ∧ p = "a.txt" then some "S" else none
    branchName := some "main"
    headOid := "h0"
    commits := [] }

/-- A registered repository with id a. -/
def repA : Repository := { id := "a", name := "A", path := "/srv/a", pollInterval := 30 }

/-- A registered repository with id b. -/
def repB : Repository := { id := "b", name := "B", path := "/srv/b", pollInterval := 30 }

/-- A registry holding the two repositories. -/
def curW : List Repository := [repA, repB]

/-- A reorder request naming an unknown id and then repository a. -/
def idsW : List String := ["x", "a"]

/-- A content oracle on which the traversal target exists on disk. -/
def oracleW : ContentOracle :=
  { gitCat := fun _ => some "blob"
    fsEx := fun _ => true
    fsRead := fun _ => "root:x:0:0" }

end Duff

namespace Duff

/-! Helper lemmas shared by several claim theorems. -/

/-- The diff loop distributes over list append: each file is processed
independently of the files around it. -/
theorem diffLoop_append (b : GitBackend) (explicit : Bool) (fro toR : Option String)
    (xs ys : List String) :
    diffLoop b explicit fro toR (xs ++ ys)
      = diffLoop b explicit fro toR xs ++ diffLoop b explicit fro toR ys := by
  induction xs with
  | nil => rfl
  | cons f rest ih =>
    simp only [List.cons_append, diffLoop]
    split
    · exact ih
    · simp [ih]

/-- The HEAD and WORKDIR columns of a status row agree exactly when the
committed content and the working-tree content agree. -/
theorem hw_iff (h w : Option Content) : headStat h = workStat h w ↔ h = w := by
  cases h with
  | none =>
    cases w with
    | none => simp [headStat, workStat]
    | some x => simp [headStat, workStat]
  | some a =>
    cases w with
    | none => simp [headStat, workStat]
    | some x =>
      by_cases e : a = x
      · simp [headStat, workStat, e]
      · simp [headStat, workStat, e, Option.some_inj]

/-- The WORKDIR and STAGE columns of a status row agree exactly when the
working-tree content and the index content agree. -/
theorem ws_iff (h w s : Option Content) : workStat h w = stageStat h w s ↔ w = s := by
  cases w with
  | none =>
    cases s with
    | none => simp [workStat, stageStat]
    | some x =>
      simp only [workStat, stageStat]
      split
      · simp
      · split <;> simp
  | some y =>
    cases s with
    | none =>
      simp only [workStat, stageStat]
      split <;> simp
    | some x =>
      simp only [workStat, stageStat]
      by_cases h1 : h = some y
      · by_cases h2 : h = some x
        · have : y = x := by
            rw [h1] at h2
            exact Option.some_inj.mp h2.symm |>.symm
          simp [h1, h2, this]
        · have hyx : y ≠ x := fun e => h2 (by rw [← e] at h2 ⊢; exact h1)
          simp [h1, h2, hyx]
      · by_cases h2 : h = some x
        · have hyx : y ≠ x := fun e => h1 (by rw [e]; exact h2)
          simp [h1, h2, hyx, Ne.symm hyx]
        · by_cases hyx : y = x
          · simp [h1, h2, hyx]
          · simp [h1, h2, hyx]

/-- The modified-row test of getStatus holds exactly when some pairwise
inequality holds among the committed, index and working states. -/
theorem cond_iff (r : Repo) (p : String) :
    ((rowOf r p).headS ≠ (rowOf r p).workdirS ∨ (rowOf r p).workdirS ≠ (rowOf r p).stageS)
      ↔ (r.head p ≠ r.index p ∨ r.index p ≠ r.work p ∨ r.head p ≠ r.work p) := by
  simp only [rowOf, ne_eq]
  rw [not_congr (hw_iff (r.head p) (r.work p)),
      not_congr (ws_iff (r.head p) (r.work p) (r.index p))]
  constructor
  · rintro (hne | hne)
    · exact Or.inr (Or.inr hne)
    · exact Or.inr (Or.inl (Ne.symm hne))
  · rintro (hne | hne | hne)
    · by_cases e : r.head p = r.work p
      · exact Or.inr (fun wi => hne (e.trans wi))
      · exact Or.inl e
    · exact Or.inr (Ne.symm hne)
    · exact Or.inl hne

/-- Boolean form of the modified-row test. -/
theorem rowCond_eq (r : Repo) (p : String) :
    (((rowOf r p).headS != (rowOf r p).workdirS) || ((rowOf r p).workdirS != (rowOf r p).stageS))
      = decide (r.head p ≠ r.index p ∨ r.index p ≠ r.work p ∨ r.head p ≠ r.work p) := by
  rw [Bool.eq_iff_iff]
  simp only [Bool.or_eq_true, bne_iff_ne, decide_eq_true_eq]
  exact cond_iff r p

/-- Boolean form of the HEAD-versus-WORKDIR row test used by getFiles. -/
theorem rowHW_eq (r : Repo) (p : String) :
    ((rowOf r p).headS != (rowOf r p).workdirS) = decide (r.head p ≠ r.work p) := by
  rw [Bool.eq_iff_iff]
  simp only [bne_iff_ne, decide_eq_true_eq, rowOf]
  exact not_congr (hw_iff (r.head p) (r.work p))

/-- A character list is a prefix of itself followed by anything. -/
theorem listPre_refl_append (p : List Char) : ∀ rest, listPre p (p ++ rest) = true := by
  induction p with
  | nil => intro rest; rfl
  | cons c cs ih => intro rest; simp [listPre, ih rest]

/-- startsWith holds of any string extending the needle. -/
theorem jsSW_of_data (s p : String) (h : ∃ rest, s.data = p.data ++ rest) :
    jsStartsWith s p = true := by
  obtain ⟨rest, h⟩ := h
  simp [jsStartsWith, h, listPre_refl_append]

/-- A joined segment list beginning with a double-dot segment renders to
a string on which startsWith two dots holds. -/
theorem joinSegs_dotdot (t : List String) :
    jsStartsWith (joinSegs (".." :: t)) ".." = true := by
  cases t with
  | nil => decide
  | cons x xs =>
    show jsStartsWith (".." ++ "/" ++ joinSegs (x :: xs)) ".." = true
    apply jsSW_of_data
    refine ⟨("/".data) ++ (joinSegs (x :: xs)).data, ?_⟩
    rw [String.data_append, String.data_append, List.append_assoc]

/-- When removing the common prefix leaves nothing of the first list, the
first list is a prefix of the second. -/
theorem dropCommon_fst_nil : ∀ a b : List String, (dropCommon a b).1 = [] → a <+: b := by
  intro a
  induction a with
  | nil => intro b _; exact List.nil_prefix
  | cons x as ih =>
    intro b h
    cases b with
    | nil => simp [dropCommon] at h
    | cons y bs =>
      by_cases e : x = y
      · rw [dropCommon, if_pos e] at h
        obtain ⟨t, ht⟩ := ih bs h
        exact ⟨t, by rw [e]; simp [ht]⟩
      · rw [dropCommon, if_neg e] at h
        exact absurd h (by simp)

end Duff

namespace Duff

/-- Mapping paths to rows, filtering on the HEAD-versus-WORKDIR columns
and projecting back is filtering on content disagreement. -/
theorem filesHW (r : Repo) (l : List String) :
    ((l.map (rowOf r)).filter (fun row => row.headS != row.workdirS)).map
        (fun row => row.path)
      = l.filter (fun p => decide (r.head p ≠ r.work p)) := by
  induction l with
  | nil => rfl
  | cons p rest ih =>
    simp only [List.map_cons, List.filter_cons, rowHW_eq]
    by_cases e : r.head p = r.work p
    · simp [e, ih]
    · simp [rowOf, e, ih]

/-- Mapping paths to rows, filtering on the modified-row test and
projecting back is filtering on pairwise disagreement of the three
states. -/
theorem filesPairwise (r : Repo) (l : List String) :
    ((l.map (rowOf r)).filter
        (fun row => row.headS != row.workdirS || row.workdirS != row.stageS)).map
        (fun row => row.path)
      = pairwiseDisagree r l := by
  unfold pairwiseDisagree
  induction l with
  | nil => rfl
  | cons p rest ih =>
    simp only [List.map_cons, List.filter_cons, rowCond_eq]
    by_cases e : r.head p ≠ r.index p ∨ r.index p ≠ r.work p ∨ r.head p ≠ r.work p
    · simp [rowOf, e, ih]
    · simp [e, ih]

end Duff

namespace Duff

/-! Claim theorems. -/

/-- C1 counterexample: with only the c0 bound given, getFiles of the
client resolver returns the empty list on rC1, although a.txt differs
between c0 and the working tree; with both bounds given it again
returns the empty list although a.txt differs between c0 and c1. -/
theorem c1_claim_counterexample :
    getFiles (backendOfRepo rC1) (some "c0") none = [] ∧
    specFilesFromVsWork rC1 "c0" = ["a.txt"] ∧
    getFiles (backendOfRepo rC1) (some "c0") (some "c1") = [] ∧
    specFilesRevVsRev rC1 "c0" "c1" = ["a.txt"] := by
  decide

/-- C1 amended: whenever at least one bound is given, getFiles of the
client resolver ignores both bounds and returns the set of paths whose
working-tree content differs from the HEAD content. -/
theorem c1_amended_bounds_ignored :
    ∀ (r : Repo) (fro toR : Option String),
    ¬(fro = none ∧ toR = none) →
    getFiles (backendOfRepo r) fro toR
      = r.paths.filter (fun p => decide (r.head p ≠ r.work p)) := by
  intro r fro toR h
  unfold getFiles getFilesE
  rw [if_neg h]
  show (((r.paths.filter (fun _ => true)).map (rowOf r)).filter
      (fun row => row.headS != row.workdirS)).map (fun row => row.path)
    = r.paths.filter (fun p => decide (r.head p ≠ r.work p))
  rw [List.filter_true]
  exact filesHW r r.paths

/-- C1 witness for the amended statement, at a concrete repository and a
concrete bound. -/
theorem c1_amended_witness :
    getFiles (backendOfRepo rSmall) (some "c0") none = ["a.txt"] := by
  have h := c1_amended_bounds_ignored rSmall (some "c0") none (by simp)
  rw [h]
  decide

/-- C2: whenever getStatus succeeds, getFiles with neither bound returns
exactly its modifiedFiles, in both the client resolver and the server
files route. -/
theorem c2_files_eq_status :
    ∀ (b : GitBackend) (s : RepoStatus) (g : SGit) (sj : StatusJson),
    (getStatusE b = .ok s → getFiles b none none = s.modifiedFiles) ∧
    (statusRoute g = .ok sj → filesRoute g none none = .ok sj.modifiedFiles) := by
  intro b s g sj
  constructor
  · intro h
    simp [getFiles, getFilesE, h, Except.map]
  · intro h
    cases hs : g.statusFiles with
    | error e =>
      rw [statusRoute.eq_def, hs] at h
      exact absurd h (by simp)
    | ok files =>
      cases hr : g.revparseHEAD with
      | error e =>
        rw [statusRoute.eq_def, hs, hr] at h
        exact absurd h (by simp)
      | ok br =>
        rw [statusRoute.eq_def, hs, hr] at h
        injection h with h2
        subst h2
        simp [filesRoute, hs]

/-- C2 witness: the concrete one-file repository and the concrete server
wrapper, where both equalities evaluate. -/
theorem c2_witness :
    getFiles (backendOfRepo rSmall) none none = ["a.txt"] ∧
    filesRoute gSmall none none = .ok ["a.txt"] := by
  obtain ⟨h1, h2⟩ := c2_files_eq_status (backendOfRepo rSmall)
    { branch := "main", modifiedFiles := ["a.txt"], hasChanges := true, lastUpdate := "" }
    gSmall { branch := "main", modifiedFiles := ["a.txt"], hasChanges := true }
  exact ⟨h1 rfl, h2 rfl⟩

end Duff

namespace Duff

/-- C3: a readBlob failure at the base revision and a working-tree read
failure both degrade to empty content instead of propagating, and the
diff loop processes every file independently, so one failing file never
aborts the remaining files. -/
theorem c3_failure_degrades :
    ∀ (b : GitBackend) (ref f : String) (err : GitErr),
    (b.readBlob ref f = .error err → getBlob b ref f = "") ∧
    (b.readFileWork f = .error err → getWorking b f = "") ∧
    (∀ (explicit : Bool) (fro toR : Option String) (xs ys : List String),
      diffLoop b explicit fro toR (xs ++ ys)
        = diffLoop b explicit fro toR xs ++ diffLoop b explicit fro toR ys) := by
  intro b ref f err
  refine ⟨fun h => ?_, fun h => ?_, ?_⟩
  · simp [getBlob, h]
  · simp [getWorking, h]
  · intro explicit fro toR xs ys
    exact diffLoop_append b explicit fro toR xs ys

/-- C3 witness: the all-failing backend, on which both snapshot reads
degrade to empty content and the loop still splits over append. -/
theorem c3_witness :
    getBlob bFail "HEAD" "a.txt" = "" ∧
    getWorking bFail "a.txt" = "" ∧
    diffLoop bFail false none none (["a.txt"] ++ ["b.txt"])
      = diffLoop bFail false none none ["a.txt"] ++ diffLoop bFail false none none ["b.txt"] := by
  obtain ⟨h1, h2, h3⟩ := c3_failure_degrades bFail "HEAD" "a.txt" "fail"
  exact ⟨h1 rfl, h2 rfl, h3 false none none ["a.txt"] ["b.txt"]⟩

/-- C4: in all-files mode a file whose two snapshots coincide contributes
nothing to the diff, while an explicitly requested file always
contributes exactly one patch, identical snapshots or not. -/
theorem c4_identical_snapshots :
    ∀ (b : GitBackend) (fro toR : Option String) (f : String),
    (leftSnap b fro f = rightSnap b toR f →
      ∀ xs ys, diffLoop b false fro toR (xs ++ f :: ys) = diffLoop b false fro toR (xs ++ ys)) ∧
    getDiffPatches b (some f) fro toR
      = [{ fileName := f, oldStr := leftSnap b fro f, newStr := rightSnap b toR f
           oldHeader := fro.getD "HEAD", newHeader := toR.getD "Working Tree" }] := by
  intro b fro toR f
  constructor
  · intro heq xs ys
    rw [diffLoop_append b false fro toR xs (f :: ys), diffLoop_append b false fro toR xs ys]
    congr 1
    simp only [diffLoop]
    rw [if_pos ⟨heq, trivial⟩]
  · simp [getDiffPatches, diffLoop]

/-- C4 witness: on the repository whose file is unchanged, the file drops
out of the all-files diff and still yields one empty patch when
requested by name. -/
theorem c4_witness :
    diffLoop (backendOfRepo rEq) false none none ([] ++ "a.txt" :: []) =
      diffLoop (backendOfRepo rEq) false none none ([] ++ []) ∧
    getDiffPatches (backendOfRepo rEq) (some "a.txt") none none
      = [{ fileName := "a.txt", oldStr := "S", newStr := "S"
           oldHeader := "HEAD", newHeader := "Working Tree" }] := by
  obtain ⟨h1, h2⟩ := c4_identical_snapshots (backendOfRepo rEq) none none "a.txt"
  exact ⟨h1 rfl [] [], h2⟩

/-- C5 counterexample: on rC5 the three states disagree at the path
node_modules/a, yet getStatus reports no modified files, because the
scan filter excludes the path; so getStatus does not return every
disagreeing path. -/
theorem c5_claim_counterexample :
    (∃ s, getStatusE (backendOfRepo rC5) = .ok s ∧ s.modifiedFiles = [] ∧ s.hasChanges = false) ∧
    pairwiseDisagree rC5 rC5.paths = ["node_modules/a"] := by
  refine ⟨⟨_, rfl, ?_, ?_⟩, ?_⟩ <;> decide

/-- C5 amended: getStatus returns exactly the scanned paths, those
surviving the node_modules, .git and dist exclusion, on which the
committed tree, the index and the working tree pairwise disagree, with
hasChanges holding exactly when that list is non-empty; the server
status route likewise reports hasChanges exactly for a non-empty file
list. -/
theorem c5_amended_status :
    ∀ (r : Repo) (g : SGit) (sj : StatusJson),
    (∃ s, getStatusE (backendOfRepo r) = .ok s ∧
      s.modifiedFiles = pairwiseDisagree r (r.paths.filter svcFilter) ∧
      (s.hasChanges = true ↔ s.modifiedFiles ≠ [])) ∧
    (statusRoute g = .ok sj → (sj.hasChanges = true ↔ sj.modifiedFiles ≠ [])) := by
  intro r g sj
  constructor
  · refine ⟨_, rfl, ?_, ?_⟩
    · show (((r.paths.filter svcFilter).map (rowOf r)).filter
          (fun row => row.headS != row.workdirS || row.workdirS != row.stageS)).map
          (fun row => row.path)
        = pairwiseDisagree r (r.paths.filter svcFilter)
      exact filesPairwise r (r.paths.filter svcFilter)
    · show (decide (0 < _) = true ↔ _)
      simp [List.length_pos]
  · intro h
    cases hs : g.statusFiles with
    | error e =>
      rw [statusRoute.eq_def, hs] at h
      exact absurd h (by simp)
    | ok files =>
      cases hr : g.revparseHEAD with
      | error e =>
        rw [statusRoute.eq_def, hs, hr] at h
        exact absurd h (by simp)
      | ok br =>
        rw [statusRoute.eq_def, hs, hr] at h
        injection h with h2
        subst h2
        simp [List.length_pos]

/-- C5 witness: the amended statement evaluated on the one-file modified
repository and the concrete server wrapper. -/
theorem c5_witness :
    (∃ s, getStatusE (backendOfRepo rSmall) = .ok s ∧
      s.modifiedFiles = ["a.txt"] ∧ s.hasChanges = true) ∧
    ((true = true) ↔ (["a.txt"] : List String) ≠ []) := by
  obtain ⟨⟨s, hs, hm, hc⟩, hsrv⟩ := c5_amended_status rSmall gSmall
    { branch := "main", modifiedFiles := ["a.txt"], hasChanges := true }
  refine ⟨⟨s, hs, ?_, ?_⟩, hsrv rfl⟩
  · rw [hm]; decide
  · exact hc.mpr (by rw [hm]; decide)

end Duff

namespace Duff

/-- C6: a content request whose file path, resolved and normalized
against the repository root, leaves the root is answered 403 whatever
the filesystem and object-store oracles hold, so in particular whether
or not the targeted file exists. -/
theorem c6_traversal_forbidden :
    ∀ (repoPath filePath : String) (version : Option String),
    ¬ (normStack [] (splitSlash repoPath)
        <+: resolveSegs (normStack [] (splitSlash repoPath)) filePath) →
    ∀ o : ContentOracle, contentHandler repoPath (some filePath) version o = .forbidden := by
  intro rp fp v hesc o
  set rs := normStack [] (splitSlash rp) with hrs
  set fs := resolveSegs rs fp with hfs
  have hfr : (dropCommon rs fs).1 ≠ [] := fun h0 => hesc (dropCommon_fst_nil rs fs h0)
  obtain ⟨a, as, hcons⟩ := List.exists_cons_of_ne_nil hfr
  have hrel : relSegs rs fs = ".." :: (List.replicate as.length ".." ++ (dropCommon rs fs).2) := by
    show List.replicate (dropCommon rs fs).1.length ".." ++ (dropCommon rs fs).2
      = ".." :: (List.replicate as.length ".." ++ (dropCommon rs fs).2)
    rw [hcons]
    simp [List.replicate_succ]
  have hsw : jsStartsWith (joinSegs (relSegs rs fs)) ".." = true := by
    rw [hrel]
    exact joinSegs_dotdot _
  simp only [contentHandler]
  rw [hsw]
  simp

/-- C6 witness: the dot-dot traversal request of the spec scenario, on an
oracle where the target does exist on disk. -/
theorem c6_witness :
    contentHandler "/home/user/repo" (some "../../etc/passwd") none oracleW = .forbidden := by
  exact c6_traversal_forbidden "/home/user/repo" "../../etc/passwd" none (by decide) oracleW

/-- C7 counterexample: with a range selected, from a and to b, an
unmodified click on the selected from node a does not clear the
selection back to the default; it keeps a as the from anchor and only
resets the to endpoint. -/
theorem c7_claim_counterexample :
    handleNodeClick1 { fromN := some "a", toN := some "b" } (some "a") false
        = { fromN := some "a", toN := none } ∧
    ({ fromN := some "a", toN := none } : Sel1) ≠ { fromN := none, toN := none } := by
  decide

/-- C7 amended: in the current graph component an unmodified click on the
selected from node clears the selection back to the default exactly when
no to endpoint is set, and otherwise keeps the node selected while
resetting to; in the alternate component revision such a click never
clears, it re-selects the node and marks to unset. -/
theorem c7_amended_click :
    ∀ (sel : Sel1) (hash : Option String),
    sel.fromN = hash →
    ((sel.toN = none → handleNodeClick1 sel hash false = { fromN := none, toN := none }) ∧
     (sel.toN ≠ none → handleNodeClick1 sel hash false = { fromN := hash, toN := none })) ∧
    ∀ sel2 : Sel2, handleNodeClick2 sel2 hash false = { fromN := ofHash hash, toN := .unsetV } := by
  intro sel hash h
  constructor
  · constructor
    · intro ht
      obtain ⟨f, t⟩ := sel
      simp only at h ht
      subst h
      subst ht
      simp [handleNodeClick1]
    · intro ht
      obtain ⟨f, t⟩ := sel
      simp only at h ht
      subst h
      simp [handleNodeClick1, ht]
  · intro sel2
    simp [handleNodeClick2]

/-- C7 witness: both branches of the amended statement and the alternate
revision, evaluated at concrete selections. -/
theorem c7_witness :
    handleNodeClick1 { fromN := some "a", toN := none } (some "a") false
        = { fromN := none, toN := none } ∧
    handleNodeClick1 { fromN := some "a", toN := some "b" } (some "a") false
        = { fromN := some "a", toN := none } ∧
    handleNodeClick2 { fromN := .hashV "c", toN := .unsetV } (some "a") false
        = { fromN := .hashV "a", toN := .unsetV } := by
  refine ⟨((c7_amended_click { fromN := some "a", toN := none } (some "a") rfl).1).1 rfl,
    ((c7_amended_click { fromN := some "a", toN := some "b" } (some "a") rfl).1).2 (by decide),
    (c7_amended_click { fromN := some "a", toN := none } (some "a") rfl).2
      { fromN := .hashV "c", toN := .unsetV }⟩

/-- C8 counterexample: in the second adapter version the symlink
operations succeed silently, readlink with an empty string and symlink
as a no-op, instead of failing with a Not-implemented error. -/
theorem c8_claim_counterexample :
    readlink2 "some/link" = .ok "" ∧ symlink2 "target" "some/link" = .ok () := by
  exact ⟨rfl, rfl⟩

/-- C8 amended: the first adapter version fails every readlink and
symlink call with a Not-implemented error, while the second version
answers readlink with the empty string and symlink with a silent
no-op, for every path. -/
theorem c8_amended_symlink_ops :
    ∀ p t : String,
    readlink1 p = .error "Not implemented: readlink" ∧
    symlink1 t p = .error "Not implemented: symlink" ∧
    readlink2 p = .ok "" ∧
    symlink2 t p = .ok () := by
  intro p t
  exact ⟨rfl, rfl, rfl, rfl⟩

/-- C9: every failure of the underlying operation is absorbed by the
client resolver: a failing readBlob or working-tree read makes
getFileContent return null, a failing log makes getLog return the empty
list, and a failing getFiles body, including the delegated getStatus
path, makes getFiles return the empty list. -/
theorem c9_never_throws :
    ∀ (b : GitBackend) (p v : String) (err : GitErr) (fro toR : Option String),
    (b.readBlob v p = .error err → getFileContent b p (some v) = none) ∧
    (b.readFileWork p = .error err → getFileContent b p none = none) ∧
    (b.log = .error err → getLog b = []) ∧
    (getFilesE b fro toR = .error err → getFiles b fro toR = []) := by
  intro b p v err fro toR
  refine ⟨fun h => ?_, fun h => ?_, fun h => ?_, fun h => ?_⟩
  · simp [getFileContent, h]
  · simp [getFileContent, h]
  · simp [getLog, h]
  · simp [getFiles, h]

/-- C9 witness: the all-failing backend, on which every resolver entry
point degrades as stated. -/
theorem c9_witness :
    getFileContent bFail "a.txt" (some "v1") = none ∧
    getFileContent bFail "a.txt" none = none ∧
    getLog bFail = [] ∧
    getFiles bFail (some "c0") none = [] ∧
    getFiles bFail none none = [] := by
  obtain ⟨h1, h2, h3, h4⟩ := c9_never_throws bFail "a.txt" "v1" "fail" (some "c0") none
  obtain ⟨_, _, _, h5⟩ := c9_never_throws bFail "a.txt" "v1" "fail" none none
  exact ⟨h1 rfl, h2 rfl, h3 rfl, h4 rfl, h5 rfl⟩

/-- Head unfolding of the reorder computation. -/
theorem reorder_cons (current : List Repository) (i : String) (rest : List String) :
    reorderRepositories current (i :: rest)
      = match current.find? (fun x => x.id == i) with
        | some r => r :: reorderRepositories current rest
        | none => reorderRepositories current rest := by
  cases h : current.find? (fun x => x.id == i) <;>
    simp [reorderRepositories, List.filterMap_cons, h]

/-- The ids of the reordered registry are the requested ids restricted to
the registered ones, in request order. -/
theorem reorder_map_id (current : List Repository) :
    ∀ ids : List String,
    (reorderRepositories current ids).map (fun r => r.id)
      = ids.filter (fun i => current.any (fun r => r.id == i)) := by
  intro ids
  induction ids with
  | nil => rfl
  | cons i rest ih =>
    rw [reorder_cons, List.filter_cons]
    cases hf : current.find? (fun x => x.id == i) with
    | none =>
      have hany : (current.any fun r => r.id == i) = false := by
        rw [List.any_eq_false]
        intro x hx
        rw [List.find?_eq_none] at hf
        exact hf x hx
      simp [hany, ih]
    | some r =>
      have hid : r.id = i := by simpa using List.find?_some hf
      have hany : (current.any fun x => x.id == i) = true :=
        List.any_eq_true.2 ⟨r, List.mem_of_find?_eq_some hf, by simpa using hid⟩
      simp [hany, hid, ih]

/-- C10: after a reorder request the persisted registry holds exactly the
registered repositories whose ids occur in the request, every persisted
entry was registered and requested, a registered repository whose id is
absent from the request is removed, and the persisted order is the
request order with unknown ids skipped. -/
theorem c10_reorder :
    ∀ (current : List Repository) (ids : List String),
    (∀ r, r ∈ reorderRepositories current ids → r ∈ current ∧ r.id ∈ ids) ∧
    (∀ r, r ∈ current → r.id ∉ ids → r ∉ reorderRepositories current ids) ∧
    (reorderRepositories current ids).map (fun r => r.id)
      = ids.filter (fun i => current.any (fun r => r.id == i)) := by
  intro current ids
  have hmem : ∀ r, r ∈ reorderRepositories current ids ↔
      ∃ i ∈ ids, current.find? (fun x => x.id == i) = some r := by
    intro r
    unfold reorderRepositories
    rw [List.filterMap_map]
    simp [List.mem_filterMap]
  refine ⟨?_, ?_, ?_⟩
  · intro r hr
    obtain ⟨i, hi, hf⟩ := (hmem r).1 hr
    have hp : r.id = i := by simpa using List.find?_some hf
    exact ⟨List.mem_of_find?_eq_some hf, hp ▸ hi⟩
  · intro r _ hnid hr
    obtain ⟨i, hi, hf⟩ := (hmem r).1 hr
    have hp : r.id = i := by simpa using List.find?_some hf
    exact hnid (hp ▸ hi)
  · exact reorder_map_id current ids

/-- C10 witness: a registry of two repositories reordered by a request
naming an unknown id and then repository a: only a survives, b is
removed, and the persisted order is the filtered request order. -/
theorem c10_witness :
    (repA ∈ curW ∧ repA.id ∈ idsW) ∧
    repB ∉ reorderRepositories curW idsW ∧
    (reorderRepositories curW idsW).map (fun r => r.id)
      = idsW.filter (fun i => curW.any (fun r => r.id == i)) := by
  obtain ⟨h1, h2, h3⟩ := c10_reorder curW idsW
  exact ⟨h1 repA (by decide), h2 repB (by decide) (by decide), h3⟩

end Duff
